import Mathlib

/-!
Shallow embedding of the SimfileLibrary core (src/basic_types.py, src/rows.py,
src/complex_types.py, src/chart_analysis.py, src/simfile_parser.py) and proofs
about it.  Exact rationals in the source (`Fraction`/`CheaperFraction`) are
modelled by `ℚ`; rows are lists of note objects; lane sets are `Finset ℕ`.
-/

namespace Simfile

/-- src/basic_types.py `NoteObject`: the enumerated lane contents. -/
inductive NoteObject where
  | EMPTY_LANE
  | TAP_OBJECT
  | HOLD_START
  | HOLD_ROLL_END
  | ROLL_START
  | MINE
  | FAKE
  | LIFT
  | HOLD_BODY
  | ROLL_BODY
  deriving DecidableEq, Repr, Fintype

open NoteObject

/-- src/rows.py `NoteObject.get_from_character` via the enum values. -/
def get_from_character (c : Char) : Option NoteObject :=
  if c = '0' then some EMPTY_LANE
  else if c = '1' then some TAP_OBJECT
  else if c = '2' then some HOLD_START
  else if c = '3' then some HOLD_ROLL_END
  else if c = '4' then some ROLL_START
  else if c = 'M' then some MINE
  else if c = 'F' then some FAKE
  else if c = 'L' then some LIFT
  else if c = 'H' then some HOLD_BODY
  else if c = 'R' then some ROLL_BODY
  else none

/-- A `PureRow` (src/rows.py): an ordered tuple of note objects. -/
def PureRow := List NoteObject
  deriving DecidableEq, Repr

/-- src/rows.py `PureRow.from_str_row`. -/
def from_str_row (s : String) : Option PureRow :=
  s.toList.mapM get_from_character

/-- src/rows.py `GlobalRow`: a row plus a global position (measures). -/
structure GlobalRow where
  row : PureRow
  pos : ℚ
  deriving DecidableEq, Repr

/-- src/rows.py `GlobalTimedRow`: a row plus a position and a time (seconds). -/
structure GlobalTimedRow where
  row : PureRow
  pos : ℚ
  time : ℚ
  deriving DecidableEq, Repr

/-- src/rows.py `GlobalDeltaRow`: a timed row plus the delta to the next row. -/
structure GlobalDeltaRow where
  row : PureRow
  pos : ℚ
  time : ℚ
  delta : ℚ
  deriving DecidableEq, Repr

/-- src/complex_types.py `MeasureBPMPair`. -/
structure MeasureBPMPair where
  measure : ℚ
  bpm : ℚ
  deriving DecidableEq, Repr

/-- src/complex_types.py `MeasureMeasurePair` (stop schedule entries). -/
structure MeasureMeasurePair where
  measure : ℚ
  value : ℚ
  deriving DecidableEq, Repr

/-- src/basic_types.py `BPM.measures_per_second`: `240 / bpm`. -/
def measures_per_second (bpm : ℚ) : ℚ := 240 / bpm

/-! ### The timing resolver

src/chart_analysis.py `UntimedNotefield.calculate_timings` (lines 136-183);
the same loop appears verbatim as `AugmentedChart.__attrs_post_init__`
(src/simfile_parser.py lines 50-92).
-/

/-- The inner `while` loop advancing over BPM segments whose measure is
strictly below the current row position (chart_analysis.py lines 155-165).
Returns the updated `(last_bpm, queue, last_measure, delta_measure, delta_time)`. -/
def advanceBPM : List MeasureBPMPair → MeasureBPMPair → ℚ → ℚ → ℚ → ℚ →
    MeasureBPMPair × List MeasureBPMPair × ℚ × ℚ × ℚ
  | [], lastBpm, lastMeasure, deltaMeasure, deltaTime, _ =>
    (lastBpm, [], lastMeasure, deltaMeasure, deltaTime)
  | nb :: rest, lastBpm, lastMeasure, deltaMeasure, deltaTime, pos =>
    if nb.measure < pos then
      advanceBPM rest nb nb.measure
        (deltaMeasure - (nb.measure - lastMeasure))
        (deltaTime + measures_per_second lastBpm.bpm * (nb.measure - lastMeasure))
        pos
    else (lastBpm, nb :: rest, lastMeasure, deltaMeasure, deltaTime)

/-- The inner `while` loop consuming stops whose measure is strictly below
`last_measure + delta_measure` (chart_analysis.py lines 169-174).  Each
consumed stop adds `CheaperFraction(stop.value, mps)`, i.e. `value / mps`,
to the accumulated delta time. -/
def consumeStopsAux : List MeasureMeasurePair → ℚ → ℚ → ℚ →
    Option MeasureMeasurePair × List MeasureMeasurePair × ℚ
  | [], deltaTime, _, _ => (none, [], deltaTime)
  | s :: rest, deltaTime, bound, mps =>
    if s.measure < bound then consumeStopsAux rest (deltaTime + s.value / mps) bound mps
    else (some s, rest, deltaTime)

/-- Entry point of the stop loop: `next` is the pending `next_stop` value
(`None` once the schedule is exhausted), `queue` the remaining deque. -/
def consumeStops (next : Option MeasureMeasurePair) (queue : List MeasureMeasurePair)
    (deltaTime bound mps : ℚ) :
    Option MeasureMeasurePair × List MeasureMeasurePair × ℚ :=
  match next with
  | none => (none, queue, deltaTime)
  | some s =>
    if s.measure < bound then consumeStopsAux queue (deltaTime + s.value / mps) bound mps
    else (some s, queue, deltaTime)

/-- The main row loop of `calculate_timings` (chart_analysis.py lines 150-181). -/
def timingLoop : List GlobalRow → ℚ → ℚ → MeasureBPMPair → List MeasureBPMPair →
    Option MeasureMeasurePair → List MeasureMeasurePair → ℚ → List GlobalTimedRow
  | [], _, _, _, _, _, _, _ => []
  | r :: rest, elapsed, lastMeasure, lastBpm, bpmQueue, nextStop, stopQueue, offset =>
    let dm := r.pos - lastMeasure
    let a := advanceBPM bpmQueue lastBpm lastMeasure dm 0 r.pos
    let lastBpm' := a.1
    let bpmQueue' := a.2.1
    let lastMeasure' := a.2.2.1
    let dm' := a.2.2.2.1
    let dt1 := a.2.2.2.2
    let dt2 := dt1 + measures_per_second lastBpm'.bpm * dm'
    let c := consumeStops nextStop stopQueue dt2 (lastMeasure' + dm')
      (measures_per_second lastBpm'.bpm)
    let nextStop' := c.1
    let stopQueue' := c.2.1
    let dt3 := c.2.2
    let elapsed' := elapsed + dt3
    ⟨r.row, r.pos, elapsed' - offset⟩ ::
      timingLoop rest elapsed' (lastMeasure' + dm') lastBpm' bpmQueue' nextStop' stopQueue' offset

/-- src/chart_analysis.py `UntimedNotefield.calculate_timings`: sorts the BPM
schedule, the stop schedule and the note field (Python `sorted` is a stable
sort, modelled by `List.insertionSort`), pops the first BPM segment
(an empty schedule raises `IndexError`, modelled by `none`) and runs the row
loop starting from `elapsed_time = 0`, `last_measure = 0`. -/
def calculate_timings (field : List GlobalRow) (bpms : List MeasureBPMPair)
    (stops : List MeasureMeasurePair) (offset : ℚ) : Option (List GlobalTimedRow) :=
  let bpms := List.insertionSort (fun a b => a.measure ≤ b.measure) bpms
  let stops := List.insertionSort (fun a b => a.measure ≤ b.measure) stops
  let field := List.insertionSort (fun a b => a.pos ≤ b.pos) field
  match bpms with
  | [] => none
  | lb :: bq =>
    match stops with
    | [] => some (timingLoop field 0 0 lb bq none [] offset)
    | s :: sq => some (timingLoop field 0 0 lb bq (some s) sq offset)

/-! ### Hold/roll body synthesis

src/chart_analysis.py `PureNotefield.hold_roll_bodies_distinct` (lines 66-98),
in its pure-row branch (`is_pure` true).  Lane sets are `Finset ℕ`.
-/

/-- src/rows.py `HasRow.find_object_lanes`, indexed from `k`:
the set of lanes carrying the given object. -/
def findLanesFrom (needle : NoteObject) : ℕ → List NoteObject → Finset ℕ
  | _, [] => ∅
  | k, x :: xs => (if x = needle then {k} else ∅) ∪ findLanesFrom needle (k + 1) xs

/-- src/rows.py `HasRow.find_object_lanes`. -/
def find_object_lanes (r : PureRow) (needle : NoteObject) : Finset ℕ :=
  findLanesFrom needle 0 r

/-- The per-row rewriting of `hold_roll_bodies_distinct` (lines 81-86): a lane
in `active_holds` becomes `HOLD_BODY`, else a lane in `active_rolls` becomes
`ROLL_BODY`, else the existing object is kept. -/
def rewriteRow (H R : Finset ℕ) : ℕ → List NoteObject → List NoteObject
  | _, [] => []
  | k, x :: xs =>
    (if k ∈ H then HOLD_BODY else if k ∈ R then ROLL_BODY else x) ::
      rewriteRow H R (k + 1) xs

/-- The forward pass of `hold_roll_bodies_distinct`: for each row, first the
`HOLD_ROLL_END` lanes leave both active sets, then the row is rewritten,
then the row's `HOLD_START`/`ROLL_START` lanes join the active sets. -/
def bodiesGo (H R : Finset ℕ) : List PureRow → List PureRow
  | [] => []
  | r :: rest =>
    let E := find_object_lanes r HOLD_ROLL_END
    let H2 := H \ E
    let R2 := R \ E
    rewriteRow H2 R2 0 r ::
      bodiesGo (H2 ∪ find_object_lanes r HOLD_START) (R2 ∪ find_object_lanes r ROLL_START) rest

/-- src/chart_analysis.py `PureNotefield.hold_roll_bodies_distinct`. -/
def hold_roll_bodies_distinct (c : List PureRow) : List PureRow :=
  bodiesGo ∅ ∅ c

/-! ### Delta sequence

src/chart_analysis.py `TimedNotefield.delta_field` (lines 285-290):
`[a.evolve(b) for a, b in zip(self[:-1:], self[1::])]` followed by appending
`self[-1].evolve(self[-1])`; `GlobalTimedRow.evolve(next_row)` builds
`GlobalDeltaRow(row, pos, time, next_row.time - self.time)` (src/rows.py
lines 231-232).  Indexing `self[-1]` on an empty list raises, modelled by
`none`.
-/

def evolveDelta (a b : GlobalTimedRow) : GlobalDeltaRow :=
  ⟨a.row, a.pos, a.time, b.time - a.time⟩

def delta_field (field : List GlobalTimedRow) : Option (List GlobalDeltaRow) :=
  match field.getLast? with
  | none => none
  | some last => some (List.zipWith evolveDelta field field.tail ++ [evolveDelta last last])

/-! ### Sliding row windows

src/complex_types.py `Notefield.get_row_sequence_of_n` (lines 124-135):
`zip(*(self[i:-order + i] for i in range(order - 1)), self[order:])`.
Python's `zip` truncates at the shortest iterable; the slice `self[i:-order+i]`
is `drop i` then `take (len - order)`.
-/

/-- Python `zip(*ls)`: the list of element-wise tuples, truncated at the
shortest member. -/
def zipAll (ls : List (List PureRow)) : List (List PureRow) :=
  let m := match ls.map List.length with
    | [] => 0
    | x :: xs => xs.foldl min x
  (List.range m).map fun j => ls.map fun c => c.getD j []

/-- src/complex_types.py `Notefield.get_row_sequence_of_n`. -/
def get_row_sequence_of_n (field : List PureRow) (order : ℕ) : List (List PureRow) :=
  zipAll ((List.range (order - 1)).map (fun i => (field.drop i).take (field.length - order))
    ++ [field.drop order])

/-! ### Mini-hold / mini-roll collapse

src/chart_analysis.py `TimedNotefield.miniholds_minirolls_as_taps`
(lines 231-283).  Lane sets are `List ℕ` (ascending); only membership in the
resulting coordinate lists is observable downstream.  A coordinate
`(start, stop, lane)` models the Python pair `(range(start, stop + 1), lane)`.
-/

/-- `find_object_lanes` as an ascending list of lane indices. -/
def findLanesL (r : PureRow) (needle : NoteObject) : List ℕ :=
  (List.range r.length).filter fun l => r.getD l EMPTY_LANE = needle

/-- src/rows.py `LONG_NOTE_SET = LONG_NOTE_ENDS_SET | LONG_NOTE_BODY_SET`. -/
def LONG_NOTE_SET : List NoteObject :=
  [HOLD_START, ROLL_START, HOLD_ROLL_END, HOLD_BODY, ROLL_BODY]

/-- The inner `for sub_index, sub_row in enumerate(self[index:], start=index)`
loop (lines 243-253): walking the suffix, pairing off pending starts against
`HOLD_ROLL_END` lanes, breaking once no starts are pending. -/
def scanFrom (idx : ℕ) : List GlobalTimedRow → ℕ → List ℕ → List ℕ →
    List (ℕ × ℕ × ℕ) × List (ℕ × ℕ × ℕ)
  | [], _, _, _ => ([], [])
  | row :: rest, sub, hs, rs =>
    let ends := findLanesL row.row HOLD_ROLL_END
    let endedH := hs.filter (· ∈ ends)
    let endedR := rs.filter (· ∈ ends)
    let hc := endedH.map fun l => (idx, sub, l)
    let rc := endedR.map fun l => (idx, sub, l)
    let hs' := hs.filter (· ∉ ends)
    let rs' := rs.filter (· ∉ ends)
    if hs' = [] ∧ rs' = [] then (hc, rc)
    else
      let t := scanFrom idx rest (sub + 1) hs' rs'
      (hc ++ t.1, rc ++ t.2)

/-- The outer coordinate-collection loop (lines 236-253). -/
def collectCoords (field : List GlobalTimedRow) : List (ℕ × ℕ × ℕ) × List (ℕ × ℕ × ℕ) :=
  (List.range field.length).foldl
    (fun acc i =>
      let row := field.getD i ⟨[], 0, 0⟩
      let hs := findLanesL row.row HOLD_START
      let rs := findLanesL row.row ROLL_START
      if hs = [] ∧ rs = [] then acc
      else
        let t := scanFrom i (field.drop i) i hs rs
        (acc.1 ++ t.1, acc.2 ++ t.2))
    ([], [])

/-- src/chart_analysis.py `TimedNotefield.miniholds_minirolls_as_taps`.
Note line 263 of the source: the `roll_coords` comprehension iterates over
`hold_coords`, which this embedding reproduces. -/
def miniholds_minirolls_as_taps (field : List GlobalTimedRow) : List GlobalTimedRow :=
  let hold_regrab_window : ℚ := 250 / 1000
  let roll_tap_window : ℚ := 500 / 1000
  let c := collectCoords field
  let dur := fun (p : ℕ × ℕ × ℕ) =>
    (field.getD p.2.1 ⟨[], 0, 0⟩).time - (field.getD p.1 ⟨[], 0, 0⟩).time
  let hold_coords := c.1.filter fun p => hold_regrab_window < dur p
  let roll_coords := hold_coords.filter fun p => roll_tap_window < dur p
  let combined := hold_coords ++ roll_coords
  let new_object := fun (obj : NoteObject) (self_index lane : ℕ) =>
    if obj ∉ LONG_NOTE_SET then obj
    else if combined.any fun p => p.1 ≤ self_index ∧ self_index ≤ p.2.1 ∧ lane = p.2.2 then obj
    else if obj = HOLD_START then TAP_OBJECT else EMPTY_LANE
  (List.range field.length).map fun i =>
    let row := field.getD i ⟨[], 0, 0⟩
    ⟨(List.range row.row.length).map fun l => new_object (row.row.getD l EMPTY_LANE) i l,
      row.pos, row.time⟩

/-! ### Row classification

src/rows.py `RowFlags.classify_row` (lines 292-358).  `RowFlags` is an
`IntFlag`; flag sets are bit masks combined with `|||`.  Widths other than 4
raise, modelled by `none`.
-/

def RF_SINGLE : ℕ := 1
def RF_OHT_JUMP : ℕ := 2
def RF_THT_JUMP : ℕ := 4
def RF_HAND : ℕ := 8
def RF_QUAD : ℕ := 16
def RF_HOLD : ℕ := 32
def RF_ROLL : ℕ := 64
def RF_OHT_HOLD : ℕ := 128
def RF_OHT_ROLL : ℕ := 256
def RF_THT_HOLD : ℕ := 512
def RF_THT_ROLL : ℕ := 1024
def RF_RELEASE : ℕ := 2048

/-- `row.row[:2] == (x, x) or row.row.mirror[:2] == (x, x)`: the two objects
occupy lanes {0,1} or lanes {2,3} (`mirror` is lane reversal). -/
def ohtPair (r : PureRow) (x : NoteObject) : Bool :=
  r.take 2 = [x, x] ∨ r.reverse.take 2 = [x, x]

/-- The tap-count contribution to the flag set (lines 311-325). -/
def tapFlag (r : PureRow) : ℕ :=
  let taps := r.count TAP_OBJECT
  if taps = 1 then RF_SINGLE
  else if taps = 2 then (if ohtPair r TAP_OBJECT then RF_OHT_JUMP else RF_THT_JUMP)
  else if taps = 3 then RF_HAND
  else if taps = 4 then RF_QUAD
  else 0

/-- The hold-count contribution (lines 327-340). -/
def holdFlag (r : PureRow) : ℕ :=
  let holds := r.count HOLD_START
  if holds = 0 then 0
  else if holds = 1 then RF_HOLD
  else if holds = 2 then (if ohtPair r HOLD_START then RF_OHT_HOLD else RF_THT_HOLD)
  else RF_THT_HOLD

/-- The roll-count contribution (lines 342-353). -/
def rollFlag (r : PureRow) : ℕ :=
  let rolls := r.count ROLL_START
  if rolls = 0 then 0
  else if rolls = 1 then RF_ROLL
  else if rolls = 2 then (if ohtPair r ROLL_START then RF_OHT_ROLL else RF_THT_ROLL)
  else RF_THT_ROLL

/-- The RELEASE contribution (lines 355-356). -/
def relFlag (r : PureRow) : ℕ :=
  if r.count HOLD_ROLL_END ≠ 0 then RF_RELEASE else 0

/-- src/rows.py `RowFlags.classify_row`. -/
def classify_row (r : PureRow) : Option ℕ :=
  if r.length ≠ 4 then none
  else if r.count EMPTY_LANE = 4 then some 0
  else some (((tapFlag r ||| holdFlag r) ||| rollFlag r) ||| relFlag r)

/-! ### Working-directory discipline of `parse`

src/simfile_parser.py `parse` (lines 271-295).  The filesystem is reduced to
the process working directory (a `ℕ`-coded path); the reading phase, the
`chdir(path.dirname(file))` call and the grammar parse may each raise, which
is what the `Bool` outcome parameters encode.  `parse` captures
`this_dir = getcwd()` before anything else; the `try/finally` block runs
`chdir(this_dir)` on every exit path.  Restoring to `this_dir` is modelled as
succeeding (it names the previously valid working directory).
-/

/-- `os.chdir(target)`: on success the working directory becomes `target`;
on failure it is unchanged and an exception propagates. -/
def chdirOp (target : ℕ) (ok : Bool) (cwd : ℕ) : Except Unit Unit × ℕ :=
  if ok then (.ok (), target) else (.error (), cwd)

/-- Python `try body finally fin`: `fin` runs whether or not `body` raised;
a body exception then propagates. -/
def tryFinally (body fin : ℕ → Except Unit Unit × ℕ) (s : ℕ) : Except Unit Unit × ℕ :=
  let b := body s
  let f := fin b.2
  (match f.1 with
   | .error e => .error e
   | .ok _ => b.1, f.2)

/-- src/simfile_parser.py `parse` (control flow): read the file (lines 274-286,
before any directory change), then inside `try ... finally chdir(this_dir)`
perform `chdir(path.dirname(file))` and the grammar parse. -/
def parse (cwd0 dir : ℕ) (readOk chdirOk parseOk : Bool) : Except Unit Unit × ℕ :=
  let this_dir := cwd0
  if !readOk then (.error (), cwd0)
  else
    tryFinally
      (fun s =>
        let c := chdirOp dir chdirOk s
        match c.1 with
        | .error e => (.error e, c.2)
        | .ok _ => (if parseOk then .ok () else .error (), c.2))
      (fun s => chdirOp this_dir true s)
      cwd0

/-! ### The invariant sentinels

src/basic_types.py `Invariant` (lines 41-57) and the `PositionInvariant`,
`TimeInvariant`, `DeltaInvariant` singletons (lines 134-152).  A value is a
rational payload together with its Python class; binary arithmetic follows
CPython's dispatch: when the right operand's class is a proper subclass of
the left's and overrides the reflected method (which exactly the
`Invariant`-derived classes do), the reflected method is tried first,
otherwise `Fraction.__add__` & co. handle any `Fraction` instance and return
a plain `Fraction`.  `Invariant._identity` returns `self` for all eight
operator slots.  `__eq__` is inherited from `Fraction`: exact numeric
equality.
-/

inductive PyCls where
  | fraction
  | cheaperFraction
  | invariant
  | bpmCls
  | measureCls
  | beatCls
  | localPosition
  | globalPosition
  | timeCls
  | positionInvariantCls
  | timeInvariantCls
  | deltaInvariantCls
  deriving DecidableEq, Repr

open PyCls

/-- The method-resolution ancestry of each class in src/basic_types.py
(the class itself included). -/
def ancestry : PyCls → List PyCls
  | fraction => [fraction]
  | cheaperFraction => [cheaperFraction, fraction]
  | invariant => [invariant, cheaperFraction, fraction]
  | bpmCls => [bpmCls, cheaperFraction, fraction]
  | measureCls => [measureCls, cheaperFraction, fraction]
  | beatCls => [beatCls, cheaperFraction, fraction]
  | localPosition => [localPosition, cheaperFraction, fraction]
  | globalPosition => [globalPosition, cheaperFraction, fraction]
  | timeCls => [timeCls, cheaperFraction, fraction]
  | positionInvariantCls =>
    [positionInvariantCls, globalPosition, invariant, cheaperFraction, fraction]
  | timeInvariantCls => [timeInvariantCls, timeCls, invariant, cheaperFraction, fraction]
  | deltaInvariantCls => [deltaInvariantCls, timeCls, invariant, cheaperFraction, fraction]

/-- `issubclass a b`. -/
def isSubclass (a b : PyCls) : Bool := b ∈ ancestry a

/-- A class absorbs arithmetic iff it derives from `Invariant`. -/
def isInv (c : PyCls) : Bool := invariant ∈ ancestry c

/-- A Python value of the numeric tower: its class and its exact payload. -/
structure PyVal where
  cls : PyCls
  val : ℚ
  deriving DecidableEq, Repr

/-- CPython binary-operator dispatch for `a ⊕ b` on this class tower:
the reflected slot of `b` wins first only when `b`'s class properly derives
from `a`'s class and overrides it (the `Invariant` classes do, returning
`self`); else `a`'s own slot: an `Invariant` returns itself, a plain
`Fraction`-family class computes and returns a plain `Fraction`. -/
def pyBinOp (op : ℚ → ℚ → ℚ) (a b : PyVal) : PyVal :=
  if isInv b.cls ∧ isSubclass b.cls a.cls ∧ b.cls ≠ a.cls then b
  else if isInv a.cls then a
  else ⟨fraction, op a.val b.val⟩

def pyAdd : PyVal → PyVal → PyVal := pyBinOp (· + ·)
def pySub : PyVal → PyVal → PyVal := pyBinOp (· - ·)
def pyMul : PyVal → PyVal → PyVal := pyBinOp (· * ·)
def pyDiv : PyVal → PyVal → PyVal := pyBinOp (· / ·)

/-- `Fraction.__eq__`, inherited unchanged by every class here:
exact numeric equality of the payloads. -/
def pyEq (a b : PyVal) : Bool := a.val = b.val

/-- `PositionInvariant = PositionInvariant()`: constructed with the default
numerator 0 (src/basic_types.py line 138). -/
def PositionInvariant : PyVal := ⟨positionInvariantCls, 0⟩

/-- `TimeInvariant = TimeInvariant()` (line 145). -/
def TimeInvariant : PyVal := ⟨timeInvariantCls, 0⟩

/-- `DeltaInvariant = DeltaInvariant()` (line 152). -/
def DeltaInvariant : PyVal := ⟨deltaInvariantCls, 0⟩

/-! ## Theorems -/

/-- C1: with BPM schedule {measure 0 → 120}, a stop of value 1/2 (measure) at
measure 1/4 and offset 0, the row at global position 2 is assigned time
`17/4` seconds by the code: the stop contributes
`value / measures_per_second = (1/2) / 2 = 1/4` second, not the 1 second the
claim requires, so the claimed total of 5.0 seconds is not produced. -/
theorem c1_stop_division_time :
    calculate_timings [⟨[TAP_OBJECT], 2⟩] [⟨0, 120⟩] [⟨1/4, 1/2⟩] 0 =
      some [⟨[TAP_OBJECT], 2, 17/4⟩] ∧ (17/4 : ℚ) ≠ 5 := by
  constructor
  · norm_num [calculate_timings, timingLoop, advanceBPM, consumeStops, consumeStopsAux,
      measures_per_second, List.insertionSort]
  · norm_num

/-- C2 counterexample: a stop whose measure equals the row's position is NOT
consumed before that row's time is emitted.  With BPM 120, a stop of value
1/2 at measure 1 and a row at position 1, the code emits time 2 (the bare
traversal time), not `2 + (1/2)/measures_per_second 120 = 9/4` as the claim
(stop applied at `measure ≤ cursor`) would demand. -/
theorem c2_stop_at_row_not_applied :
    calculate_timings [⟨[TAP_OBJECT], 1⟩] [⟨0, 120⟩] [⟨1, 1/2⟩] 0 =
      some [⟨[TAP_OBJECT], 1, 2⟩] ∧
    (2 : ℚ) ≠ 2 + (1/2) / measures_per_second 120 := by
  constructor
  · norm_num [calculate_timings, timingLoop, advanceBPM, consumeStops, consumeStopsAux,
      measures_per_second, List.insertionSort]
  · norm_num [measures_per_second]

/-- C3: on the five-row field `[A, B, C, D, E]` with `order = 2` the code
returns the three pairs `[(A,C), (B,D), (C,E)]` — each window skips the
adjacent row and there are `n − k` windows, not the `n − k + 1` overlapping
adjacent pairs `[(A,B), (B,C), (C,D), (D,E)]` the claim (and the function's
own docstring) describe. -/
theorem c3_window_skips_adjacent :
    get_row_sequence_of_n
        [[TAP_OBJECT], [HOLD_START], [ROLL_START], [MINE], [FAKE]] 2 =
      [[[TAP_OBJECT], [ROLL_START]], [[HOLD_START], [MINE]], [[ROLL_START], [FAKE]]] ∧
    ([[[TAP_OBJECT], [ROLL_START]], [[HOLD_START], [MINE]],
      [[ROLL_START], [FAKE]]] : List (List PureRow)).length ≠ 5 - 2 + 1 := by
  constructor
  · decide
  · decide

/-- C4: a roll of duration 1 second (well above the 500 ms window) is still
collapsed, and its `ROLL_START` becomes `EMPTY_LANE`, not `TAP_OBJECT`:
line 263 of src/chart_analysis.py filters `hold_coords` instead of
`roll_coords`, so no roll interval is ever protected, and the collapse
branch maps only `HOLD_START` to a tap.  The claim requires this notefield
to be returned unchanged. -/
theorem c4_long_roll_still_collapsed :
    miniholds_minirolls_as_taps [⟨[ROLL_START], 0, 0⟩, ⟨[HOLD_ROLL_END], 1, 1⟩] =
      [⟨[EMPTY_LANE], 0, 0⟩, ⟨[EMPTY_LANE], 1, 1⟩] ∧
    ¬ ((1 : ℚ) - 0 ≤ 500 / 1000) := by
  constructor
  · norm_num [miniholds_minirolls_as_taps, collectCoords, scanFrom, findLanesL,
      LONG_NOTE_SET, List.range_succ, List.filter, List.foldl]
    decide
  · norm_num

/-- C6 counterexample: `hold_roll_bodies_distinct` is not idempotent on every
notefield.  On the one-lane field `[ROLL_START; HOLD_START; EMPTY]` the first
pass turns the trailing empty row into `HOLD_BODY` (the overlapping
`HOLD_START` joined `active_holds`), but the second pass no longer sees that
`HOLD_START` (it was rewritten to `ROLL_BODY`), so the row becomes
`ROLL_BODY` instead. -/
theorem c6_not_idempotent_on_overlap :
    hold_roll_bodies_distinct
        (hold_roll_bodies_distinct [[ROLL_START], [HOLD_START], [EMPTY_LANE]]) ≠
      hold_roll_bodies_distinct [[ROLL_START], [HOLD_START], [EMPTY_LANE]] := by
  decide

/-- C9: `parse` restores the working directory on every exit path: whether the
read phase raises before any directory change, the `chdir` into the simfile's
directory fails, or the grammar parse fails, the working directory after the
call equals the working directory before it. -/
theorem c9_parse_restores_cwd (cwd0 dir : ℕ) (readOk chdirOk parseOk : Bool) :
    (parse cwd0 dir readOk chdirOk parseOk).2 = cwd0 := by
  cases readOk <;> cases chdirOk <;> cases parseOk <;> rfl

/-! ### Timing linearity and the stop tie-break -/

/-- Under a single BPM segment starting at measure 0 (empty BPM queue, no
stops), the row loop keeps the invariant `elapsed = (240/b) · last_measure`
and emits `time = pos · (240/b) − offset` for every row. -/
lemma timingLoop_single_bpm (b offset : ℚ) :
    ∀ (rows : List GlobalRow) (elapsed lm : ℚ),
      elapsed = measures_per_second b * lm →
      timingLoop rows elapsed lm ⟨0, b⟩ [] none [] offset =
        rows.map fun r => ⟨r.row, r.pos, r.pos * (240 / b) - offset⟩ := by
  intro rows
  induction rows with
  | nil => intro elapsed lm _; rfl
  | cons r rest ih =>
    intro elapsed lm h
    simp only [timingLoop, advanceBPM, consumeStops, List.map_cons]
    have he : elapsed + (0 + measures_per_second b * (r.pos - lm)) =
        r.pos * (240 / b) := by
      rw [h]; unfold measures_per_second; ring
    have hl : lm + (r.pos - lm) = r.pos := by ring
    rw [he, hl, ih _ _ (by unfold measures_per_second at he ⊢; linarith [he])]

/-- C7: under a BPM schedule consisting of the single segment
`measure 0 → b` with `b > 0`, no stops and offset 0, every row of a strictly
increasing, non-negative notefield is assigned time `position · (240/b)`. -/
theorem c7_timing_linearity (field : List GlobalRow) (b : ℚ) (hb : 0 < b)
    (hinc : field.Pairwise fun x y => x.pos < y.pos)
    (hnn : ∀ r ∈ field, 0 ≤ r.pos) :
    calculate_timings field [⟨0, b⟩] [] 0 =
      some (field.map fun r => ⟨r.row, r.pos, r.pos * (240 / b)⟩) := by
  have hsorted : List.Sorted (fun x y : GlobalRow => x.pos ≤ y.pos) field :=
    hinc.imp le_of_lt
  unfold calculate_timings
  simp only [hsorted.insertionSort_eq]
  show some (timingLoop field 0 0 ⟨0, b⟩ [] none [] 0) = _
  rw [timingLoop_single_bpm b 0 field 0 0 (by ring)]
  simp

/-- `consumeStopsAux` consumes exactly the longest front run of stops whose
measure is strictly below the bound, adding `value / mps` for each, and
leaves the rest of the deque as the new pending pair. -/
lemma consumeStopsAux_spec (bound mps : ℚ) :
    ∀ (q : List MeasureMeasurePair) (dt : ℚ),
      consumeStopsAux q dt bound mps =
        ((q.dropWhile fun s => decide (s.measure < bound)).head?,
          (q.dropWhile fun s => decide (s.measure < bound)).tail,
          dt + ((q.takeWhile fun s => decide (s.measure < bound)).map
            fun s => s.value / mps).sum) := by
  intro q
  induction q with
  | nil => intro dt; simp [consumeStopsAux]
  | cons s rest ih =>
    intro dt
    by_cases hs : s.measure < bound
    · rw [show consumeStopsAux (s :: rest) dt bound mps =
          consumeStopsAux rest (dt + s.value / mps) bound mps from by
        simp [consumeStopsAux, hs]]
      rw [ih, List.dropWhile_cons_of_pos (by simpa using hs),
        List.takeWhile_cons_of_pos (by simpa using hs)]
      simp only [List.map_cons, List.sum_cons, Prod.mk.injEq, true_and]
      ring
    · rw [show consumeStopsAux (s :: rest) dt bound mps = (some s, rest, dt) from by
        simp [consumeStopsAux, hs]]
      rw [List.dropWhile_cons_of_neg (by simpa using hs),
        List.takeWhile_cons_of_neg (by simpa using hs)]
      simp

/-- The stop loop, entered with the pending deque `pend` split into its
`next_stop` head and queue tail, consumes the front run of stops strictly
below the bound. -/
lemma consumeStops_spec (bound mps : ℚ) (pend : List MeasureMeasurePair) (dt : ℚ) :
    consumeStops pend.head? pend.tail dt bound mps =
      ((pend.dropWhile fun s => decide (s.measure < bound)).head?,
        (pend.dropWhile fun s => decide (s.measure < bound)).tail,
        dt + ((pend.takeWhile fun s => decide (s.measure < bound)).map
          fun s => s.value / mps).sum) := by
  cases pend with
  | nil => simp [consumeStops]
  | cons s rest =>
    by_cases hs : s.measure < bound
    · rw [show (s :: rest : List MeasureMeasurePair).head? = some s from rfl,
        show (s :: rest : List MeasureMeasurePair).tail = rest from rfl,
        show consumeStops (some s) rest dt bound mps =
          consumeStopsAux rest (dt + s.value / mps) bound mps from by
          simp [consumeStops, hs]]
      rw [consumeStopsAux_spec, List.dropWhile_cons_of_pos (by simpa using hs),
        List.takeWhile_cons_of_pos (by simpa using hs)]
      simp only [List.map_cons, List.sum_cons, Prod.mk.injEq, true_and]
      ring
    · rw [show (s :: rest : List MeasureMeasurePair).head? = some s from rfl,
        show (s :: rest : List MeasureMeasurePair).tail = rest from rfl,
        show consumeStops (some s) rest dt bound mps = (some s, rest, dt) from by
          simp [consumeStops, hs]]
      rw [List.dropWhile_cons_of_neg (by simpa using hs),
        List.takeWhile_cons_of_neg (by simpa using hs)]
      simp

/-- On a measure-sorted stop list the front run below a bound is exactly the
set of stops below the bound. -/
lemma sorted_filter_eq_takeWhile (x : ℚ) :
    ∀ (pend : List MeasureMeasurePair),
      pend.Pairwise (fun s t => s.measure ≤ t.measure) →
      pend.filter (fun s => decide (s.measure < x)) =
        pend.takeWhile (fun s => decide (s.measure < x)) := by
  intro pend
  induction pend with
  | nil => intro _; rfl
  | cons s rest ih =>
    intro hp
    by_cases hs : s.measure < x
    · rw [List.filter_cons_of_pos (by simpa using hs),
        List.takeWhile_cons_of_pos (by simpa using hs), ih hp.of_cons]
    · rw [List.filter_cons_of_neg (by simpa using hs),
        List.takeWhile_cons_of_neg (by simpa using hs)]
      refine List.filter_eq_nil_iff.mpr fun t ht => ?_
      have hle : s.measure ≤ t.measure := (List.pairwise_cons.mp hp).1 t ht
      simp only [decide_eq_true_eq]
      intro hlt
      exact hs (lt_of_le_of_lt hle hlt)

/-- The BPM-advance result after moving the cursor from `lm` to `pos`:
the new current BPM segment. -/
def currentBpmAfter (bq : List MeasureBPMPair) (lb : MeasureBPMPair)
    (lm pos : ℚ) : MeasureBPMPair :=
  (advanceBPM bq lb lm (pos - lm) 0 pos).1

/-- The BPM-advance result after moving the cursor from `lm` to `pos`:
the remaining BPM queue. -/
def bpmQueueAfter (bq : List MeasureBPMPair) (lb : MeasureBPMPair)
    (lm pos : ℚ) : List MeasureBPMPair :=
  (advanceBPM bq lb lm (pos - lm) 0 pos).2.1

/-- The BPM-only traversal time accumulated while the cursor moves from `lm`
to `pos` (the row loop's `delta_time` before the stop loop runs). -/
def bpmDelta (bq : List MeasureBPMPair) (lb : MeasureBPMPair)
    (lm pos : ℚ) : ℚ :=
  (advanceBPM bq lb lm (pos - lm) 0 pos).2.2.2.2 +
    measures_per_second (advanceBPM bq lb lm (pos - lm) 0 pos).1.bpm *
      (advanceBPM bq lb lm (pos - lm) 0 pos).2.2.2.1

/-- `advanceBPM` preserves `last_measure + delta_measure`. -/
lemma advanceBPM_measure_sum :
    ∀ (q : List MeasureBPMPair) (lb : MeasureBPMPair) (lm dm dt pos : ℚ),
      (advanceBPM q lb lm dm dt pos).2.2.1 +
        (advanceBPM q lb lm dm dt pos).2.2.2.1 = lm + dm := by
  intro q
  induction q with
  | nil => intro lb lm dm dt pos; rfl
  | cons nb rest ih =>
    intro lb lm dm dt pos
    by_cases h : nb.measure < pos
    · rw [show advanceBPM (nb :: rest) lb lm dm dt pos =
          advanceBPM rest nb nb.measure (dm - (nb.measure - lm))
            (dt + measures_per_second lb.bpm * (nb.measure - lm)) pos from by
        simp [advanceBPM, h]]
      rw [ih]
      ring
    · rw [show advanceBPM (nb :: rest) lb lm dm dt pos =
          (lb, nb :: rest, lm, dm, dt) from by simp [advanceBPM, h]]

/-- C2 (amended): during timing resolution — under ANY BPM schedule state and
any measure-sorted pending stop schedule — processing a row consumes exactly
the pending stops whose measure is STRICTLY less than that row's position,
adding `value / measures_per_second` of the then-current BPM for each to the
elapsed time before the row's time is emitted; a stop whose measure equals
the row's position is NOT applied to that row: it stays pending for the later
rows (so it is applied before the first later row with strictly greater
position).  The second conjunct shows every run of `calculate_timings`
starts the row loop in exactly this shape, with its schedules sorted. -/
theorem c2_stop_tiebreak (r : GlobalRow) (rest : List GlobalRow)
    (elapsed lm offset : ℚ) (lastBpm : MeasureBPMPair)
    (bpmQueue : List MeasureBPMPair) (pend : List MeasureMeasurePair)
    (hsorted : pend.Pairwise fun s t => s.measure ≤ t.measure) :
    (timingLoop (r :: rest) elapsed lm lastBpm bpmQueue pend.head? pend.tail offset =
      ⟨r.row, r.pos,
        elapsed + (bpmDelta bpmQueue lastBpm lm r.pos +
          ((pend.filter fun s => decide (s.measure < r.pos)).map fun s =>
            s.value / measures_per_second
              (currentBpmAfter bpmQueue lastBpm lm r.pos).bpm).sum) - offset⟩ ::
        timingLoop rest
          (elapsed + (bpmDelta bpmQueue lastBpm lm r.pos +
            ((pend.filter fun s => decide (s.measure < r.pos)).map fun s =>
              s.value / measures_per_second
                (currentBpmAfter bpmQueue lastBpm lm r.pos).bpm).sum))
          r.pos (currentBpmAfter bpmQueue lastBpm lm r.pos)
          (bpmQueueAfter bpmQueue lastBpm lm r.pos)
          (pend.dropWhile fun s => decide (s.measure < r.pos)).head?
          (pend.dropWhile fun s => decide (s.measure < r.pos)).tail offset) ∧
    (∀ (field : List GlobalRow) (bpms : List MeasureBPMPair)
        (stops : List MeasureMeasurePair) (off : ℚ)
        (lb : MeasureBPMPair) (bq : List MeasureBPMPair),
      List.insertionSort (fun x y : MeasureBPMPair => x.measure ≤ y.measure) bpms =
        lb :: bq →
      calculate_timings field bpms stops off =
        some (timingLoop
          (List.insertionSort (fun x y : GlobalRow => x.pos ≤ y.pos) field) 0 0 lb bq
          (List.insertionSort
            (fun s t : MeasureMeasurePair => s.measure ≤ t.measure) stops).head?
          (List.insertionSort
            (fun s t : MeasureMeasurePair => s.measure ≤ t.measure) stops).tail off)) := by
  constructor
  · simp only [timingLoop]
    have hb : (advanceBPM bpmQueue lastBpm lm (r.pos - lm) 0 r.pos).2.2.1 +
        (advanceBPM bpmQueue lastBpm lm (r.pos - lm) 0 r.pos).2.2.2.1 = r.pos := by
      rw [advanceBPM_measure_sum]
      ring
    rw [hb, consumeStops_spec]
    simp only [bpmDelta, currentBpmAfter, bpmQueueAfter]
    rw [sorted_filter_eq_takeWhile r.pos pend hsorted]
  · intro field bpms stops off lb bq h
    simp only [calculate_timings]
    rw [h]
    cases List.insertionSort
        (fun s t : MeasureMeasurePair => s.measure ≤ t.measure) stops with
    | nil => rfl
    | cons s0 sq => rfl

/-! ### Idempotence of hold/roll body synthesis -/

/-- Absence of overlapping long notes of different kinds: along the forward
pass, no `HOLD_START` appears on a lane currently in the active-roll set and
no `ROLL_START` on a lane currently in the active-hold set (after the row's
`HOLD_ROLL_END` lanes have left both sets).  Well-formed charts (each start
matched by a later end before any new start on that lane) satisfy this. -/
def goodAux (H R : Finset ℕ) : List PureRow → Bool
  | [] => true
  | r :: rest =>
    let E := find_object_lanes r HOLD_ROLL_END
    let H2 := H \ E
    let R2 := R \ E
    decide (find_object_lanes r HOLD_START ∩ R2 = ∅) &&
    decide (find_object_lanes r ROLL_START ∩ H2 = ∅) &&
    goodAux (H2 ∪ find_object_lanes r HOLD_START) (R2 ∪ find_object_lanes r ROLL_START) rest

lemma mem_ite_singleton (P : Prop) [Decidable P] (k l : ℕ) :
    l ∈ (if P then ({k} : Finset ℕ) else ∅) ↔ P ∧ l = k := by
  split <;> simp [*]

lemma mem_findLanesFrom_rewriteRow (needle : NoteObject)
    (hH : needle ≠ HOLD_BODY) (hR : needle ≠ ROLL_BODY) :
    ∀ (r : List NoteObject) (k : ℕ) (H R : Finset ℕ) (l : ℕ),
      l ∈ findLanesFrom needle k (rewriteRow H R k r) ↔
        l ∈ findLanesFrom needle k r ∧ l ∉ H ∧ l ∉ R := by
  intro r
  induction r with
  | nil => intro k H R l; simp [findLanesFrom, rewriteRow]
  | cons x xs ih =>
    intro k H R l
    simp only [rewriteRow, findLanesFrom, Finset.mem_union, mem_ite_singleton, ih]
    by_cases hk : k ∈ H
    · simp only [if_pos hk]
      constructor
      · rintro (⟨h1, rfl⟩ | ⟨h1, h2, h3⟩)
        · exact absurd h1.symm hH
        · exact ⟨Or.inr h1, h2, h3⟩
      · rintro ⟨h1 | h1, h2, h3⟩
        · rcases h1 with ⟨-, rfl⟩
          exact absurd hk h2
        · exact Or.inr ⟨h1, h2, h3⟩
    · by_cases hk2 : k ∈ R
      · simp only [if_neg hk, if_pos hk2]
        constructor
        · rintro (⟨h1, rfl⟩ | ⟨h1, h2, h3⟩)
          · exact absurd h1.symm hR
          · exact ⟨Or.inr h1, h2, h3⟩
        · rintro ⟨h1 | h1, h2, h3⟩
          · rcases h1 with ⟨-, rfl⟩
            exact absurd hk2 h3
          · exact Or.inr ⟨h1, h2, h3⟩
      · simp only [if_neg hk, if_neg hk2]
        constructor
        · rintro (⟨h1, rfl⟩ | ⟨h1, h2, h3⟩)
          · exact ⟨Or.inl ⟨h1, rfl⟩, hk, hk2⟩
          · exact ⟨Or.inr h1, h2, h3⟩
        · rintro ⟨h1 | h1, h2, h3⟩
          · rcases h1 with ⟨hx, rfl⟩
            exact Or.inl ⟨hx, rfl⟩
          · exact Or.inr ⟨h1, h2, h3⟩

lemma find_object_lanes_rewriteRow (needle : NoteObject)
    (hH : needle ≠ HOLD_BODY) (hR : needle ≠ ROLL_BODY)
    (r : List NoteObject) (H R : Finset ℕ) :
    find_object_lanes (rewriteRow H R 0 r) needle =
      find_object_lanes r needle \ (H ∪ R) := by
  ext l
  simp only [find_object_lanes, mem_findLanesFrom_rewriteRow needle hH hR,
    Finset.mem_sdiff, Finset.mem_union]
  tauto

lemma rewriteRow_idem (H R : Finset ℕ) :
    ∀ (r : List NoteObject) (k : ℕ),
      rewriteRow H R k (rewriteRow H R k r) = rewriteRow H R k r := by
  intro r
  induction r with
  | nil => intro k; rfl
  | cons x xs ih =>
    intro k
    by_cases hk : k ∈ H
    · simp only [rewriteRow, if_pos hk, ih]
    · by_cases hk2 : k ∈ R
      · simp only [rewriteRow, if_neg hk, if_pos hk2, ih]
      · simp only [rewriteRow, if_neg hk, if_neg hk2, ih]

/-- The `HOLD_ROLL_END` lanes of every row survive the body-synthesis pass
unchanged: an end lane has just been removed from both active sets, so the
rewriting keeps its object. -/
lemma bodiesGo_ends : ∀ (rows : List PureRow) (H R : Finset ℕ),
    (bodiesGo H R rows).map (fun r => find_object_lanes r HOLD_ROLL_END) =
      rows.map fun r => find_object_lanes r HOLD_ROLL_END := by
  intro rows
  induction rows with
  | nil => intro H R; rfl
  | cons r rest ih =>
    intro H R
    simp only [bodiesGo, List.map_cons, ih]
    congr 1
    rw [find_object_lanes_rewriteRow HOLD_ROLL_END (by simp) (by simp)]
    ext l
    simp only [Finset.mem_sdiff, Finset.mem_union]
    tauto

/-- The sets computed by a second pass of `bodiesGo` over the output of a
first pass agree with the first pass, provided no start overlaps an active
long note of the other kind. -/
lemma bodiesGo_idem : ∀ (rows : List PureRow) (H R : Finset ℕ),
    goodAux H R rows = true →
    bodiesGo H R (bodiesGo H R rows) = bodiesGo H R rows := by
  intro rows
  induction rows with
  | nil => intro H R _; rfl
  | cons r rest ih =>
    intro H R hgood
    simp only [goodAux, Bool.and_eq_true, decide_eq_true_eq] at hgood
    obtain ⟨⟨hSH, hSR⟩, hrest⟩ := hgood
    simp only [bodiesGo]
    have hends :
        find_object_lanes (rewriteRow (H \ find_object_lanes r HOLD_ROLL_END)
            (R \ find_object_lanes r HOLD_ROLL_END) 0 r) HOLD_ROLL_END =
          find_object_lanes r HOLD_ROLL_END := by
      rw [find_object_lanes_rewriteRow HOLD_ROLL_END (by simp) (by simp)]
      ext l
      simp only [Finset.mem_sdiff, Finset.mem_union]
      tauto
    rw [hends]
    congr 1
    · exact rewriteRow_idem _ _ r 0
    · have hstartH :
          find_object_lanes (rewriteRow (H \ find_object_lanes r HOLD_ROLL_END)
              (R \ find_object_lanes r HOLD_ROLL_END) 0 r) HOLD_START =
            find_object_lanes r HOLD_START \
              ((H \ find_object_lanes r HOLD_ROLL_END) ∪
                (R \ find_object_lanes r HOLD_ROLL_END)) :=
        find_object_lanes_rewriteRow HOLD_START (by simp) (by simp) r _ _
      have hstartR :
          find_object_lanes (rewriteRow (H \ find_object_lanes r HOLD_ROLL_END)
              (R \ find_object_lanes r HOLD_ROLL_END) 0 r) ROLL_START =
            find_object_lanes r ROLL_START \
              ((H \ find_object_lanes r HOLD_ROLL_END) ∪
                (R \ find_object_lanes r HOLD_ROLL_END)) :=
        find_object_lanes_rewriteRow ROLL_START (by simp) (by simp) r _ _
      rw [hstartH, hstartR]
      have hHset :
          (H \ find_object_lanes r HOLD_ROLL_END) ∪
              (find_object_lanes r HOLD_START \
                ((H \ find_object_lanes r HOLD_ROLL_END) ∪
                  (R \ find_object_lanes r HOLD_ROLL_END))) =
            (H \ find_object_lanes r HOLD_ROLL_END) ∪ find_object_lanes r HOLD_START := by
        ext l
        have hl := Finset.eq_empty_iff_forall_not_mem.mp hSH l
        simp only [Finset.mem_inter, Finset.mem_sdiff] at hl
        simp only [Finset.mem_union, Finset.mem_sdiff]
        tauto
      have hRset :
          (R \ find_object_lanes r HOLD_ROLL_END) ∪
              (find_object_lanes r ROLL_START \
                ((H \ find_object_lanes r HOLD_ROLL_END) ∪
                  (R \ find_object_lanes r HOLD_ROLL_END))) =
            (R \ find_object_lanes r HOLD_ROLL_END) ∪ find_object_lanes r ROLL_START := by
        ext l
        have hl := Finset.eq_empty_iff_forall_not_mem.mp hSR l
        simp only [Finset.mem_inter, Finset.mem_sdiff] at hl
        simp only [Finset.mem_union, Finset.mem_sdiff]
        tauto
      rw [hHset, hRset]
      exact ih _ _ hrest

/-- C6 (amended): `hold_roll_bodies_distinct` is idempotent (applying it
`k ≥ 1` times equals applying it once) on every notefield in which no
`HOLD_START`/`ROLL_START` appears on a lane still occupied by an active long
note of the other kind — in particular on every well-formed notefield — and
every `HOLD_ROLL_END` lane of the input is preserved in the output
(the latter unconditionally). -/
theorem c6_bodies_idempotent (c : List PureRow) (h : goodAux ∅ ∅ c = true) :
    (∀ k : ℕ, 1 ≤ k →
      hold_roll_bodies_distinct^[k] c = hold_roll_bodies_distinct c) ∧
    (hold_roll_bodies_distinct c).map (fun r => find_object_lanes r HOLD_ROLL_END) =
      c.map (fun r => find_object_lanes r HOLD_ROLL_END) := by
  have hff : hold_roll_bodies_distinct (hold_roll_bodies_distinct c) =
      hold_roll_bodies_distinct c := bodiesGo_idem c ∅ ∅ h
  constructor
  · have haux : ∀ j : ℕ,
        hold_roll_bodies_distinct^[j] (hold_roll_bodies_distinct c) =
          hold_roll_bodies_distinct c := by
      intro j
      induction j with
      | zero => rfl
      | succ j ihj =>
        rw [Function.iterate_succ_apply, hff, ihj]
    intro k hk
    obtain ⟨j, rfl⟩ : ∃ j, k = j + 1 := ⟨k - 1, by omega⟩
    rw [Function.iterate_succ_apply, haux j]
  · exact bodiesGo_ends c ∅ ∅

/-- Witness for C6: the two-row chart `[HOLD_START]; [HOLD_ROLL_END]`
satisfies the no-overlap hypothesis, and the theorem applies to it. -/
theorem c6_bodies_idempotent_witness :
    goodAux ∅ ∅ [[HOLD_START], [HOLD_ROLL_END]] = true ∧
    ((∀ k : ℕ, 1 ≤ k →
      hold_roll_bodies_distinct^[k] [[HOLD_START], [HOLD_ROLL_END]] =
        hold_roll_bodies_distinct [[HOLD_START], [HOLD_ROLL_END]]) ∧
    (hold_roll_bodies_distinct [[HOLD_START], [HOLD_ROLL_END]]).map
        (fun r => find_object_lanes r HOLD_ROLL_END) =
      ([[HOLD_START], [HOLD_ROLL_END]] : List PureRow).map
        (fun r => find_object_lanes r HOLD_ROLL_END)) :=
  ⟨by decide, c6_bodies_idempotent [[HOLD_START], [HOLD_ROLL_END]] (by decide)⟩

/-! ### The delta closure -/

def gtDefault : GlobalTimedRow := ⟨[], 0, 0⟩
def gdDefault : GlobalDeltaRow := ⟨[], 0, 0, 0⟩

/-- The recursion `delta_field` satisfies: the zip pairs off consecutive rows,
and the appended final element is the last row evolved with itself. -/
def ddSpec : List GlobalTimedRow → List GlobalDeltaRow
  | [] => []
  | [a] => [evolveDelta a a]
  | a :: b :: rest => evolveDelta a b :: ddSpec (b :: rest)

lemma delta_field_eq : ∀ (field : List GlobalTimedRow), field ≠ [] →
    delta_field field = some (ddSpec field) := by
  intro field
  induction field with
  | nil => intro h; exact absurd rfl h
  | cons a rest ih =>
    intro _
    cases rest with
    | nil => rfl
    | cons b rest' =>
      have h2 := ih (List.cons_ne_nil b rest')
      obtain ⟨l, hl⟩ := Option.isSome_iff_exists.mp
        (List.getLast?_isSome.mpr (List.cons_ne_nil b rest'))
      unfold delta_field at h2 ⊢
      rw [hl] at h2
      rw [List.getLast?_cons_cons, hl]
      have h2' := Option.some.inj h2
      simp only [List.tail_cons] at h2' ⊢
      rw [List.zipWith_cons_cons, List.cons_append]
      rw [show ddSpec (a :: b :: rest') = evolveDelta a b :: ddSpec (b :: rest') from rfl]
      rw [h2']

lemma ddSpec_length : ∀ field : List GlobalTimedRow,
    (ddSpec field).length = field.length := by
  intro field
  induction field with
  | nil => rfl
  | cons a rest ih =>
    cases rest with
    | nil => rfl
    | cons b rest' => simp only [ddSpec, List.length_cons, ih]

lemma ddSpec_getD_fields : ∀ (field : List GlobalTimedRow) (i : ℕ), i < field.length →
    ((ddSpec field).getD i gdDefault).row = (field.getD i gtDefault).row ∧
    ((ddSpec field).getD i gdDefault).pos = (field.getD i gtDefault).pos ∧
    ((ddSpec field).getD i gdDefault).time = (field.getD i gtDefault).time := by
  intro field
  induction field with
  | nil => intro i h; simp at h
  | cons a rest ih =>
    intro i h
    cases rest with
    | nil =>
      match i, h with
      | 0, _ => exact ⟨rfl, rfl, rfl⟩
      | i + 1, h => simp at h
    | cons b rest' =>
      match i with
      | 0 => exact ⟨rfl, rfl, rfl⟩
      | i + 1 =>
        rw [show ddSpec (a :: b :: rest') = evolveDelta a b :: ddSpec (b :: rest') from rfl]
        simp only [List.getD_cons_succ]
        exact ih i (by simpa using h)

lemma ddSpec_getD_delta : ∀ (field : List GlobalTimedRow) (i : ℕ),
    i + 1 < field.length →
    ((ddSpec field).getD i gdDefault).delta =
      (field.getD (i + 1) gtDefault).time - (field.getD i gtDefault).time := by
  intro field
  induction field with
  | nil => intro i h; simp at h
  | cons a rest ih =>
    intro i h
    cases rest with
    | nil => simp at h
    | cons b rest' =>
      match i with
      | 0 => rfl
      | i + 1 =>
        rw [show ddSpec (a :: b :: rest') = evolveDelta a b :: ddSpec (b :: rest') from rfl]
        simp only [List.getD_cons_succ]
        exact ih i (by simpa using h)

lemma ddSpec_last_delta : ∀ field : List GlobalTimedRow, field ≠ [] →
    ((ddSpec field).getD (field.length - 1) gdDefault).delta = 0 := by
  intro field
  induction field with
  | nil => intro h; exact absurd rfl h
  | cons a rest ih =>
    intro _
    cases rest with
    | nil => simp [ddSpec, evolveDelta]
    | cons b rest' =>
      rw [show ddSpec (a :: b :: rest') = evolveDelta a b :: ddSpec (b :: rest') from rfl]
      rw [show (a :: b :: rest').length - 1 = (b :: rest').length - 1 + 1 from by
        simp [Nat.succ_sub_one]]
      simp only [List.getD_cons_succ]
      exact ih (List.cons_ne_nil b rest')

/-- C5: for a timed notefield of length `n ≥ 1`, `delta_field` produces a
delta notefield of the same length, preserving row, position and time in
order, with `delta[i] = time[i+1] − time[i]` for `i < n−1` and
`delta[n−1] = 0`; consequently prefix sums of the deltas recover the times
up to `time[0]`. -/
theorem c5_delta_closure (field : List GlobalTimedRow) (h : field ≠ []) :
    ∃ ds, delta_field field = some ds ∧
      ds.length = field.length ∧
      (∀ i, i < field.length →
        (ds.getD i gdDefault).row = (field.getD i gtDefault).row ∧
        (ds.getD i gdDefault).pos = (field.getD i gtDefault).pos ∧
        (ds.getD i gdDefault).time = (field.getD i gtDefault).time) ∧
      (∀ i, i + 1 < field.length →
        (ds.getD i gdDefault).delta =
          (field.getD (i + 1) gtDefault).time - (field.getD i gtDefault).time) ∧
      (ds.getD (field.length - 1) gdDefault).delta = 0 ∧
      (∀ i, i < field.length →
        (field.getD i gtDefault).time =
          (field.getD 0 gtDefault).time +
            ∑ j ∈ Finset.range i, (ds.getD j gdDefault).delta) := by
  refine ⟨ddSpec field, delta_field_eq field h, ddSpec_length field,
    ddSpec_getD_fields field, ddSpec_getD_delta field, ddSpec_last_delta field h, ?_⟩
  intro i
  induction i with
  | zero => intro _; simp
  | succ i ihi =>
    intro hi
    have hi' : i < field.length := by omega
    have hdelta := ddSpec_getD_delta field i hi
    have hprev := ihi hi'
    rw [Finset.sum_range_succ, hdelta]
    linarith [hprev]

/-- Witness for C5 at a concrete two-row timed notefield. -/
theorem c5_delta_closure_witness :
    (([⟨[TAP_OBJECT], 0, 0⟩, ⟨[TAP_OBJECT], 1, 2⟩] : List GlobalTimedRow) ≠ []) ∧
    (∃ ds, delta_field [⟨[TAP_OBJECT], 0, 0⟩, ⟨[TAP_OBJECT], 1, 2⟩] = some ds ∧
      ds.length = ([⟨[TAP_OBJECT], 0, 0⟩, ⟨[TAP_OBJECT], 1, 2⟩] :
        List GlobalTimedRow).length ∧
      (∀ i, i < ([⟨[TAP_OBJECT], 0, 0⟩, ⟨[TAP_OBJECT], 1, 2⟩] :
          List GlobalTimedRow).length →
        (ds.getD i gdDefault).row =
          (([⟨[TAP_OBJECT], 0, 0⟩, ⟨[TAP_OBJECT], 1, 2⟩] :
            List GlobalTimedRow).getD i gtDefault).row ∧
        (ds.getD i gdDefault).pos =
          (([⟨[TAP_OBJECT], 0, 0⟩, ⟨[TAP_OBJECT], 1, 2⟩] :
            List GlobalTimedRow).getD i gtDefault).pos ∧
        (ds.getD i gdDefault).time =
          (([⟨[TAP_OBJECT], 0, 0⟩, ⟨[TAP_OBJECT], 1, 2⟩] :
            List GlobalTimedRow).getD i gtDefault).time) ∧
      (∀ i, i + 1 < ([⟨[TAP_OBJECT], 0, 0⟩, ⟨[TAP_OBJECT], 1, 2⟩] :
          List GlobalTimedRow).length →
        (ds.getD i gdDefault).delta =
          (([⟨[TAP_OBJECT], 0, 0⟩, ⟨[TAP_OBJECT], 1, 2⟩] :
            List GlobalTimedRow).getD (i + 1) gtDefault).time -
          (([⟨[TAP_OBJECT], 0, 0⟩, ⟨[TAP_OBJECT], 1, 2⟩] :
            List GlobalTimedRow).getD i gtDefault).time) ∧
      (ds.getD (([⟨[TAP_OBJECT], 0, 0⟩, ⟨[TAP_OBJECT], 1, 2⟩] :
          List GlobalTimedRow).length - 1) gdDefault).delta = 0 ∧
      (∀ i, i < ([⟨[TAP_OBJECT], 0, 0⟩, ⟨[TAP_OBJECT], 1, 2⟩] :
          List GlobalTimedRow).length →
        (([⟨[TAP_OBJECT], 0, 0⟩, ⟨[TAP_OBJECT], 1, 2⟩] :
            List GlobalTimedRow).getD i gtDefault).time =
          (([⟨[TAP_OBJECT], 0, 0⟩, ⟨[TAP_OBJECT], 1, 2⟩] :
            List GlobalTimedRow).getD 0 gtDefault).time +
            ∑ j ∈ Finset.range i, (ds.getD j gdDefault).delta)) :=
  ⟨by simp, c5_delta_closure [⟨[TAP_OBJECT], 0, 0⟩, ⟨[TAP_OBJECT], 1, 2⟩] (by simp)⟩

/-! ### Row classification -/

lemma ohtPair_iff (x a b c d : NoteObject) :
    ohtPair [a, b, c, d] x = true ↔ ((a = x ∧ b = x) ∨ (c = x ∧ d = x)) := by
  rw [show ohtPair [a, b, c, d] x =
    decide (([a, b] : PureRow) = [x, x] ∨ ([d, c] : PureRow) = [x, x]) from rfl]
  simp only [decide_eq_true_eq, List.cons.injEq, and_true]
  tauto

lemma tapFlag_cases (r : PureRow) :
    tapFlag r = 0 ∨ tapFlag r = 1 ∨ tapFlag r = 2 ∨ tapFlag r = 4 ∨
      tapFlag r = 8 ∨ tapFlag r = 16 := by
  simp only [tapFlag]
  split_ifs <;> norm_num [RF_SINGLE, RF_OHT_JUMP, RF_THT_JUMP, RF_HAND, RF_QUAD]

lemma holdFlag_cases (r : PureRow) :
    holdFlag r = 0 ∨ holdFlag r = 32 ∨ holdFlag r = 128 ∨ holdFlag r = 512 := by
  simp only [holdFlag]
  split_ifs <;> norm_num [RF_HOLD, RF_OHT_HOLD, RF_THT_HOLD]

lemma rollFlag_cases (r : PureRow) :
    rollFlag r = 0 ∨ rollFlag r = 64 ∨ rollFlag r = 256 ∨ rollFlag r = 1024 := by
  simp only [rollFlag]
  split_ifs <;> norm_num [RF_ROLL, RF_OHT_ROLL, RF_THT_ROLL]

lemma relFlag_cases (r : PureRow) : relFlag r = 0 ∨ relFlag r = 2048 := by
  simp only [relFlag]
  split_ifs <;> norm_num [RF_RELEASE]

/-- The five bit characterizations of `classify_row` on an arbitrary
width-4 row. -/
lemma classify_row_core (a b c d : NoteObject) :
    (classify_row [a, b, c, d]).isSome = true ∧
    (((classify_row [a, b, c, d]).getD 0).testBit 1 ↔
      ([a, b, c, d].count TAP_OBJECT = 2 ∧
        ((a = TAP_OBJECT ∧ b = TAP_OBJECT) ∨ (c = TAP_OBJECT ∧ d = TAP_OBJECT)))) ∧
    (((classify_row [a, b, c, d]).getD 0).testBit 2 ↔
      ([a, b, c, d].count TAP_OBJECT = 2 ∧
        ¬((a = TAP_OBJECT ∧ b = TAP_OBJECT) ∨ (c = TAP_OBJECT ∧ d = TAP_OBJECT)))) ∧
    (((classify_row [a, b, c, d]).getD 0).testBit 3 ↔
      [a, b, c, d].count TAP_OBJECT = 3) ∧
    (((classify_row [a, b, c, d]).getD 0).testBit 4 ↔
      [a, b, c, d].count TAP_OBJECT = 4) ∧
    (((classify_row [a, b, c, d]).getD 0).testBit 11 ↔
      1 ≤ [a, b, c, d].count HOLD_ROLL_END) := by
  have hlen : ¬(([a, b, c, d] : PureRow).length ≠ 4) := by simp
  unfold classify_row
  rw [if_neg hlen]
  by_cases hE : ([a, b, c, d] : PureRow).count EMPTY_LANE = 4
  · rw [if_pos hE]
    have hall : ∀ y ∈ ([a, b, c, d] : PureRow), EMPTY_LANE = y :=
      List.count_eq_length.mp (by rw [hE]; rfl)
    obtain rfl : EMPTY_LANE = a := hall a (by simp)
    obtain rfl : EMPTY_LANE = b := hall b (by simp)
    obtain rfl : EMPTY_LANE = c := hall c (by simp)
    obtain rfl : EMPTY_LANE = d := hall d (by simp)
    decide
  · rw [if_neg hE]
    have hhold : ∀ i ∈ ([1, 2, 3, 4, 11] : List ℕ),
        (holdFlag [a, b, c, d]).testBit i = false := by
      intro i hi
      rcases holdFlag_cases [a, b, c, d] with h | h | h | h <;> rw [h] <;>
        fin_cases hi <;> rfl
    have hroll : ∀ i ∈ ([1, 2, 3, 4, 11] : List ℕ),
        (rollFlag [a, b, c, d]).testBit i = false := by
      intro i hi
      rcases rollFlag_cases [a, b, c, d] with h | h | h | h <;> rw [h] <;>
        fin_cases hi <;> rfl
    have hrel : ∀ i ∈ ([1, 2, 3, 4] : List ℕ),
        (relFlag [a, b, c, d]).testBit i = false := by
      intro i hi
      rcases relFlag_cases [a, b, c, d] with h | h <;> rw [h] <;>
        fin_cases hi <;> rfl
    have htap : (tapFlag [a, b, c, d]).testBit 11 = false := by
      rcases tapFlag_cases [a, b, c, d] with h | h | h | h | h | h <;> rw [h] <;> rfl
    refine ⟨rfl, ?_, ?_, ?_, ?_, ?_⟩ <;> simp only [Option.getD_some, Nat.testBit_lor]
    · rw [hhold 1 (by simp), hroll 1 (by simp), hrel 1 (by simp)]
      simp only [Bool.or_false]
      simp only [tapFlag]
      split_ifs with h1 h2 h3 h4 h5
      · exact iff_of_false (by decide) (by rintro ⟨hc, -⟩; omega)
      · exact iff_of_true (by decide) ⟨h2, (ohtPair_iff TAP_OBJECT a b c d).mp h3⟩
      · exact iff_of_false (by decide)
          (by rintro ⟨-, hl⟩; exact h3 ((ohtPair_iff TAP_OBJECT a b c d).mpr hl))
      · exact iff_of_false (by decide) (by rintro ⟨hc, -⟩; omega)
      · exact iff_of_false (by decide) (by rintro ⟨hc, -⟩; omega)
      · exact iff_of_false (by decide) (by rintro ⟨hc, -⟩; omega)
    · rw [hhold 2 (by simp), hroll 2 (by simp), hrel 2 (by simp)]
      simp only [Bool.or_false]
      simp only [tapFlag]
      split_ifs with h1 h2 h3 h4 h5
      · exact iff_of_false (by decide) (by rintro ⟨hc, -⟩; omega)
      · exact iff_of_false (by decide)
          (by rintro ⟨-, hl⟩; exact hl ((ohtPair_iff TAP_OBJECT a b c d).mp h3))
      · exact iff_of_true (by decide)
          ⟨h2, fun hl => h3 ((ohtPair_iff TAP_OBJECT a b c d).mpr hl)⟩
      · exact iff_of_false (by decide) (by rintro ⟨hc, -⟩; omega)
      · exact iff_of_false (by decide) (by rintro ⟨hc, -⟩; omega)
      · exact iff_of_false (by decide) (by rintro ⟨hc, -⟩; omega)
    · rw [hhold 3 (by simp), hroll 3 (by simp), hrel 3 (by simp)]
      simp only [Bool.or_false]
      simp only [tapFlag]
      split_ifs with h1 h2 h3 h4 h5
      · exact iff_of_false (by decide) (by intro hc; omega)
      · exact iff_of_false (by decide) (by intro hc; omega)
      · exact iff_of_false (by decide) (by intro hc; omega)
      · exact iff_of_true (by decide) h4
      · exact iff_of_false (by decide) (by intro hc; omega)
      · exact iff_of_false (by decide) (by intro hc; omega)
    · rw [hhold 4 (by simp), hroll 4 (by simp), hrel 4 (by simp)]
      simp only [Bool.or_false]
      simp only [tapFlag]
      split_ifs with h1 h2 h3 h4 h5
      · exact iff_of_false (by decide) (by intro hc; omega)
      · exact iff_of_false (by decide) (by intro hc; omega)
      · exact iff_of_false (by decide) (by intro hc; omega)
      · exact iff_of_false (by decide) (by intro hc; omega)
      · exact iff_of_true (by decide) h5
      · exact iff_of_false (by decide) (by intro hc; omega)
    · rw [htap, hhold 11 (by simp), hroll 11 (by simp)]
      simp only [Bool.false_or]
      simp only [relFlag]
      split_ifs with h
      · exact iff_of_true (by decide) (by omega)
      · exact iff_of_false (by decide) (by omega)

/-- C8: for every width-4 row, `classify_row` succeeds; the OHT_JUMP bit is
set exactly when the row carries two `TAP_OBJECT`s occupying lanes {0,1} or
lanes {2,3}; THT_JUMP exactly for the remaining two-tap rows; HAND exactly
for three taps; QUAD exactly for four; and RELEASE exactly when at least one
`HOLD_ROLL_END` is present.  Hence `1100 ↦ {OHT_JUMP}`, `1010 ↦ {THT_JUMP}`,
`1111 ↦ {QUAD}` and `2003 ↦ {HOLD, RELEASE}`. -/
theorem c8_row_classification :
    (∀ a b c d : NoteObject,
      (classify_row [a, b, c, d]).isSome = true ∧
      (((classify_row [a, b, c, d]).getD 0).testBit 1 ↔
        ([a, b, c, d].count TAP_OBJECT = 2 ∧
          ((a = TAP_OBJECT ∧ b = TAP_OBJECT) ∨ (c = TAP_OBJECT ∧ d = TAP_OBJECT)))) ∧
      (((classify_row [a, b, c, d]).getD 0).testBit 2 ↔
        ([a, b, c, d].count TAP_OBJECT = 2 ∧
          ¬((a = TAP_OBJECT ∧ b = TAP_OBJECT) ∨ (c = TAP_OBJECT ∧ d = TAP_OBJECT)))) ∧
      (((classify_row [a, b, c, d]).getD 0).testBit 3 ↔
        [a, b, c, d].count TAP_OBJECT = 3) ∧
      (((classify_row [a, b, c, d]).getD 0).testBit 4 ↔
        [a, b, c, d].count TAP_OBJECT = 4) ∧
      (((classify_row [a, b, c, d]).getD 0).testBit 11 ↔
        1 ≤ [a, b, c, d].count HOLD_ROLL_END)) ∧
    from_str_row "1100" = some [TAP_OBJECT, TAP_OBJECT, EMPTY_LANE, EMPTY_LANE] ∧
    classify_row [TAP_OBJECT, TAP_OBJECT, EMPTY_LANE, EMPTY_LANE] = some RF_OHT_JUMP ∧
    from_str_row "1010" = some [TAP_OBJECT, EMPTY_LANE, TAP_OBJECT, EMPTY_LANE] ∧
    classify_row [TAP_OBJECT, EMPTY_LANE, TAP_OBJECT, EMPTY_LANE] = some RF_THT_JUMP ∧
    from_str_row "1111" = some [TAP_OBJECT, TAP_OBJECT, TAP_OBJECT, TAP_OBJECT] ∧
    classify_row [TAP_OBJECT, TAP_OBJECT, TAP_OBJECT, TAP_OBJECT] = some RF_QUAD ∧
    from_str_row "2003" = some [HOLD_START, EMPTY_LANE, EMPTY_LANE, HOLD_ROLL_END] ∧
    classify_row [HOLD_START, EMPTY_LANE, EMPTY_LANE, HOLD_ROLL_END] =
      some (RF_HOLD ||| RF_RELEASE) := by
  exact ⟨fun a b c d => classify_row_core a b c d,
    by decide, by decide, by decide, by decide, by decide, by decide, by decide, by decide⟩

/-- C10 counterexample: arithmetic with a sentinel on the right of an
unrelated semantic type is NOT absorbed.  `Time(1) + PositionInvariant`
dispatches to `Fraction.__add__` (PositionInvariant's class does not derive
from Time, so its reflected slot gets no priority) and returns the plain
`Fraction` 1, which is a different value from the sentinel and not even
numerically equal to it. -/
theorem c10_add_not_absorbed :
    pyAdd ⟨timeCls, 1⟩ PositionInvariant = ⟨fraction, 1⟩ ∧
    pyAdd ⟨timeCls, 1⟩ PositionInvariant ≠ PositionInvariant ∧
    pyEq (pyAdd ⟨timeCls, 1⟩ PositionInvariant) PositionInvariant = false := by
  have h : pyAdd ⟨timeCls, 1⟩ PositionInvariant = ⟨fraction, 1 + 0⟩ := rfl
  refine ⟨?_, ?_, ?_⟩
  · rw [h]; norm_num
  · rw [h]; intro hc
    exact PyCls.noConfusion (congrArg PyVal.cls hc)
  · rw [h]
    simp [pyEq, PositionInvariant]

/-- C10 (amended): each sentinel is constructed with payload 0 and inherits
exact-rational equality — it equals itself, the plain rational 0, zero-valued
`Time`/`GlobalPosition` values, and the sentinels of the other kinds.  It
absorbs arithmetic whenever it is the LEFT operand (its own operator slots
return `self`), and as the right operand exactly when the left operand's
class is one of the sentinel's superclasses (so the sentinel's reflected slot
is tried first); with any other left operand plain `Fraction` arithmetic
runs instead. -/
theorem c10_sentinel_semantics :
    (PositionInvariant.val = 0 ∧ TimeInvariant.val = 0 ∧ DeltaInvariant.val = 0) ∧
    (∀ x : PyVal,
      pyAdd PositionInvariant x = PositionInvariant ∧
      pySub PositionInvariant x = PositionInvariant ∧
      pyMul PositionInvariant x = PositionInvariant ∧
      pyDiv PositionInvariant x = PositionInvariant ∧
      pyAdd TimeInvariant x = TimeInvariant ∧
      pySub TimeInvariant x = TimeInvariant ∧
      pyMul TimeInvariant x = TimeInvariant ∧
      pyDiv TimeInvariant x = TimeInvariant ∧
      pyAdd DeltaInvariant x = DeltaInvariant ∧
      pySub DeltaInvariant x = DeltaInvariant ∧
      pyMul DeltaInvariant x = DeltaInvariant ∧
      pyDiv DeltaInvariant x = DeltaInvariant) ∧
    (∀ q : ℚ,
      pyAdd ⟨globalPosition, q⟩ PositionInvariant = PositionInvariant ∧
      pySub ⟨globalPosition, q⟩ PositionInvariant = PositionInvariant ∧
      pyMul ⟨globalPosition, q⟩ PositionInvariant = PositionInvariant ∧
      pyDiv ⟨globalPosition, q⟩ PositionInvariant = PositionInvariant ∧
      pyAdd ⟨cheaperFraction, q⟩ PositionInvariant = PositionInvariant ∧
      pyAdd ⟨fraction, q⟩ PositionInvariant = PositionInvariant ∧
      pyAdd ⟨timeCls, q⟩ TimeInvariant = TimeInvariant ∧
      pyAdd ⟨timeCls, q⟩ DeltaInvariant = DeltaInvariant) ∧
    (pyEq PositionInvariant PositionInvariant = true ∧
      pyEq PositionInvariant ⟨fraction, 0⟩ = true ∧
      pyEq PositionInvariant ⟨timeCls, 0⟩ = true ∧
      pyEq PositionInvariant ⟨globalPosition, 0⟩ = true ∧
      pyEq PositionInvariant TimeInvariant = true ∧
      pyEq TimeInvariant DeltaInvariant = true ∧
      pyEq DeltaInvariant PositionInvariant = true) := by
  refine ⟨⟨rfl, rfl, rfl⟩, ?_, ?_, ?_⟩
  · rintro ⟨c, q⟩
    cases c <;>
      exact ⟨rfl, rfl, rfl, rfl, rfl, rfl, rfl, rfl, rfl, rfl, rfl, rfl⟩
  · intro q
    exact ⟨rfl, rfl, rfl, rfl, rfl, rfl, rfl, rfl⟩
  · refine ⟨?_, ?_, ?_, ?_, ?_, ?_, ?_⟩ <;>
      simp [pyEq, PositionInvariant, TimeInvariant, DeltaInvariant]

/-- Witness for C2 at a concrete input: rows at positions 1 and 2, BPM 120
with an empty queue, the single pending stop `(1, 1/2)` whose measure equals
the first row's position: the theorem applies, showing the stop is filtered
out for that row (`1 < 1` fails) and stays pending for the row at 2. -/
theorem c2_stop_tiebreak_witness :
    (([⟨1, 1/2⟩] : List MeasureMeasurePair).Pairwise
      fun s t => s.measure ≤ t.measure) ∧
    ((timingLoop ((⟨[TAP_OBJECT], 1⟩ : GlobalRow) :: [⟨[TAP_OBJECT], 2⟩]) 0 0 ⟨0, 120⟩ []
        ([⟨1, 1/2⟩] : List MeasureMeasurePair).head?
        ([⟨1, 1/2⟩] : List MeasureMeasurePair).tail 0 =
      ⟨(⟨[TAP_OBJECT], 1⟩ : GlobalRow).row, (⟨[TAP_OBJECT], 1⟩ : GlobalRow).pos,
        0 + (bpmDelta [] ⟨0, 120⟩ 0 (⟨[TAP_OBJECT], 1⟩ : GlobalRow).pos +
          ((([⟨1, 1/2⟩] : List MeasureMeasurePair).filter fun s =>
              decide (s.measure < (⟨[TAP_OBJECT], 1⟩ : GlobalRow).pos)).map fun s =>
            s.value / measures_per_second
              (currentBpmAfter [] ⟨0, 120⟩ 0
                (⟨[TAP_OBJECT], 1⟩ : GlobalRow).pos).bpm).sum) - 0⟩ ::
        timingLoop [⟨[TAP_OBJECT], 2⟩]
          (0 + (bpmDelta [] ⟨0, 120⟩ 0 (⟨[TAP_OBJECT], 1⟩ : GlobalRow).pos +
            ((([⟨1, 1/2⟩] : List MeasureMeasurePair).filter fun s =>
                decide (s.measure < (⟨[TAP_OBJECT], 1⟩ : GlobalRow).pos)).map fun s =>
              s.value / measures_per_second
                (currentBpmAfter [] ⟨0, 120⟩ 0
                  (⟨[TAP_OBJECT], 1⟩ : GlobalRow).pos).bpm).sum))
          (⟨[TAP_OBJECT], 1⟩ : GlobalRow).pos
          (currentBpmAfter [] ⟨0, 120⟩ 0 (⟨[TAP_OBJECT], 1⟩ : GlobalRow).pos)
          (bpmQueueAfter [] ⟨0, 120⟩ 0 (⟨[TAP_OBJECT], 1⟩ : GlobalRow).pos)
          (([⟨1, 1/2⟩] : List MeasureMeasurePair).dropWhile fun s =>
            decide (s.measure < (⟨[TAP_OBJECT], 1⟩ : GlobalRow).pos)).head?
          (([⟨1, 1/2⟩] : List MeasureMeasurePair).dropWhile fun s =>
            decide (s.measure < (⟨[TAP_OBJECT], 1⟩ : GlobalRow).pos)).tail 0) ∧
    (∀ (field : List GlobalRow) (bpms : List MeasureBPMPair)
        (stops : List MeasureMeasurePair) (off : ℚ)
        (lb : MeasureBPMPair) (bq : List MeasureBPMPair),
      List.insertionSort (fun x y : MeasureBPMPair => x.measure ≤ y.measure) bpms =
        lb :: bq →
      calculate_timings field bpms stops off =
        some (timingLoop
          (List.insertionSort (fun x y : GlobalRow => x.pos ≤ y.pos) field) 0 0 lb bq
          (List.insertionSort
            (fun s t : MeasureMeasurePair => s.measure ≤ t.measure) stops).head?
          (List.insertionSort
            (fun s t : MeasureMeasurePair => s.measure ≤ t.measure) stops).tail off))) := by
  have hs : ([⟨1, 1/2⟩] : List MeasureMeasurePair).Pairwise
      (fun s t => s.measure ≤ t.measure) := by simp
  exact ⟨hs, c2_stop_tiebreak ⟨[TAP_OBJECT], 1⟩ [⟨[TAP_OBJECT], 2⟩] 0 0 0 ⟨0, 120⟩ []
    [⟨1, 1/2⟩] hs⟩

/-- Witness for C7 at a concrete input: BPM 120, rows at positions 0 and 1/2
get times 0 and 1 second. -/
theorem c7_timing_linearity_witness :
    ((0 : ℚ) < 120 ∧
      List.Pairwise (fun x y : GlobalRow => x.pos < y.pos)
        [⟨[TAP_OBJECT], 0⟩, ⟨[TAP_OBJECT], 1/2⟩] ∧
      (∀ r ∈ ([⟨[TAP_OBJECT], 0⟩, ⟨[TAP_OBJECT], 1/2⟩] : List GlobalRow), 0 ≤ r.pos)) ∧
    calculate_timings [⟨[TAP_OBJECT], 0⟩, ⟨[TAP_OBJECT], 1/2⟩] [⟨0, 120⟩] [] 0 =
      some (([⟨[TAP_OBJECT], 0⟩, ⟨[TAP_OBJECT], 1/2⟩] : List GlobalRow).map
        fun r => ⟨r.row, r.pos, r.pos * (240 / 120)⟩) := by
  have h1 : (0 : ℚ) < 120 := by norm_num
  have h3 : List.Pairwise (fun x y : GlobalRow => x.pos < y.pos)
      [⟨[TAP_OBJECT], 0⟩, ⟨[TAP_OBJECT], 1/2⟩] := by
    norm_num [List.pairwise_cons]
  have h4 : ∀ r ∈ ([⟨[TAP_OBJECT], 0⟩, ⟨[TAP_OBJECT], 1/2⟩] : List GlobalRow),
      0 ≤ r.pos := by
    intro r hr
    rcases List.mem_cons.mp hr with rfl | hr
    · norm_num
    · rcases List.mem_singleton.mp hr with rfl
      norm_num
  exact ⟨⟨h1, h3, h4⟩,
    c7_timing_linearity [⟨[TAP_OBJECT], 0⟩, ⟨[TAP_OBJECT], 1/2⟩] 120 h1 h3 h4⟩

end Simfile
